import Mathlib

/-!
Verification of simpleRoutingPy: a shallow embedding of the reconciliation
engine (src/src/modules/apply_routing.py), the route data model and health
checks (src/src/modules/dataclass.py), the ICMP prober (src/test/ping_ng.py)
and the per-route monitor task (src/src/main.py), with theorems settling the
specification claims about them.

Conventions of the embedding:
 - Python `float` quantities (loss percentages, latencies, RTTs) are
   modelled as rationals; Python `int` as `Int` (or `Nat` where the source
   value is a byte count or an index).
 - Python lists are Lean `List`s; the Python `set` of warning keys is a
   `Finset String`; a Python `dict` used as a map is an association list
   updated in place.
 - I/O performed by the code (DNS resolution, raw sockets, the kernel route
   table) is made explicit: the environment's behaviour is a parameter
   (`ProbeEnv`, reply traces, the kernel route list), and the functions
   compute what the source computes from those observations.
 - Logging calls are dropped: they alter no state the claims mention.
-/

/-- String destination normalization, `modules/utilities.normalize_dest`
(identical local copy inside `RouteEntry.__eq__`): the textual form
"default" is the same destination as "0.0.0.0/0". -/
def normalize_dest (dest : String) : String :=
  if dest = "default" then "0.0.0.0/0" else dest

/-- `RouteRule` of src/src/modules/dataclass.py. -/
structure RouteRule where
  type : String
  max_packet_loss : ℚ
  max_latency_ms : Int
  check_interval_sec : Int
  ping_address : Option String
deriving DecidableEq, Repr

/-- `RouteEntry` of src/src/modules/dataclass.py.  `useable` is Python's
`Optional[bool]` tri-state. -/
structure RouteEntry where
  id : String
  destination : String
  gateway : Option String
  interface : String
  metric : Int
  priority : Int
  proto : Option String
  rule : Option RouteRule
  useable : Option Bool
deriving DecidableEq, Repr

/-- `RouteEntry.__eq__`: structural match on normalized destination,
gateway, interface and metric; `id`, `priority`, `proto`, `rule` and
`useable` play no part. -/
def structEq (a b : RouteEntry) : Bool :=
  normalize_dest a.destination == normalize_dest b.destination
    && a.gateway == b.gateway
    && a.interface == b.interface
    && a.metric == b.metric

/-- The structural key underlying `structEq`: two entries are structurally
equal exactly when their keys coincide. -/
def skey (r : RouteEntry) : String × Option String × String × Int :=
  (normalize_dest r.destination, r.gateway, r.interface, r.metric)

/-- Python truthiness of the `Optional[bool]` field `useable`
(`None` and `False` are falsy). -/
def isUseable (r : RouteEntry) : Bool :=
  r.useable == some true

/-- `config.uncached_priority` (src/src/config/__init__.py line 9). -/
def uncached_priority : Int := 255

/-! ### apply_routes (src/src/modules/apply_routing.py lines 9-71) -/

/-- Python `list.remove(a)` for RouteEntry lists: drop the first element
that compares `==` (structurally) to `a`; the identity when none does,
matching the `if a in lst: lst.remove(a)` guarded idiom of the source. -/
def removeFirstEq (a : RouteEntry) : List RouteEntry → List RouteEntry
  | [] => []
  | x :: xs => if structEq x a then xs else x :: removeFirstEq a xs

/-- Python `a in lst` for RouteEntry lists (`==` is structural). -/
def containsEq (a : RouteEntry) (l : List RouteEntry) : Bool :=
  l.any (fun x => structEq x a)

/-- The inner `next((b for b in inject_routes_copy if a_dest == b_dest))`
search of `apply_routes`: first entry with the same normalized destination. -/
def findDest (a : RouteEntry) (l : List RouteEntry) : Option RouteEntry :=
  l.find? (fun b => normalize_dest b.destination == normalize_dest a.destination)

/-- The pairing loop of `apply_routes` (lines 28-43).  Arguments mirror the
mutable state: the fixed iteration copy `remove_routes_copy`, the live
`remove_routes`, `inject_routes` and `inject_routes_copy` lists, and the
accumulated `replace_inject` list.  Returns the final
(`replace_inject`, `remove_routes`, `inject_routes`). -/
def applyLoop :
    List RouteEntry → List RouteEntry → List RouteEntry → List RouteEntry →
    List RouteEntry → List RouteEntry × List RouteEntry × List RouteEntry
  | [], r, i, _, ri => (ri, r, i)
  | a :: as, r, i, ic, ri =>
    match findDest a ic with
    | none => applyLoop as r i ic ri
    | some b =>
      applyLoop as
        (if containsEq a r then removeFirstEq a r else r)
        (if containsEq b i then removeFirstEq b i else i)
        (removeFirstEq b ic)
        (ri ++ [b])

/-- One kernel-mutation command issued by `apply_routes`: an atomic replace
(`replace_route`), a delete (`remove_route`) or an add (`add_route`). -/
inductive RouteCall where
  | replace (r : RouteEntry)
  | del (r : RouteEntry)
  | add (r : RouteEntry)
deriving DecidableEq, Repr

/-- `apply_routes` (lines 9-55): pair removals with injections that share a
normalized destination into replaces, then issue the replaces, then the
remaining deletes, then the remaining adds.  The returned list is the
sequence of mutation commands in issue order.  `existing_routes` is only
logged by the source and affects no command. -/
def apply_routes (inject_routes existing_routes remove_routes : List RouteEntry) :
    List RouteCall :=
  let st := applyLoop remove_routes remove_routes inject_routes inject_routes []
  st.1.map RouteCall.replace ++ st.2.1.map RouteCall.del ++ st.2.2.map RouteCall.add

/-! ### enable_config_route (src/src/modules/apply_routing.py lines 74-185) -/

/-- Assignment `m[k] = v` on the association-list model of a Python dict:
overwrite the binding when the key is present, append it otherwise. -/
def mapSet (m : List (String × Int)) (k : String) (v : Int) : List (String × Int) :=
  match m with
  | [] => [(k, v)]
  | (k', v') :: rest => if k' = k then (k, v) :: rest else (k', v') :: mapSet rest k v

/-- Lookup `m[k]` on the dict model.  The default is never reached by the
source: `enable_config_route` only looks up ids it has just written. -/
def lookupD (m : List (String × Int)) (k : String) (d : Int) : Int :=
  match m with
  | [] => d
  | (k', v) :: rest => if k' = k then v else lookupD rest k d

/-- The priority `enable_config_route` records for one kernel route
(lines 101-108): the priority of the first structurally-matching config
route, or `uncached_priority` when none matches. -/
def installedPriority (config_routes : List RouteEntry) (sr : RouteEntry) : Int :=
  match config_routes.find? (fun cr => structEq cr sr) with
  | some cr => cr.priority
  | none => uncached_priority

/-- `sys_route_config_map` (lines 100-108): one `installedPriority` binding
per kernel route, keyed by its id. -/
def sysRouteConfigMap (ip_routes config_routes : List RouteEntry) :
    List (String × Int) :=
  ip_routes.foldl (fun m sr => mapSet m sr.id (installedPriority config_routes sr)) []

/-- The in-place rewrite `route.destination = "default"` applied to every
config route with destination "0.0.0.0/0" (lines 112-114). -/
def normalizeConfigRoutes (l : List RouteEntry) : List RouteEntry :=
  l.map (fun r =>
    if r.destination = "0.0.0.0/0" then { r with destination := "default" } else r)

/-- The insertion-ordered key set of `destinations2routes` (a defaultdict
filled in list order; Python dicts iterate in insertion order). -/
def destKeys (l : List RouteEntry) : List String :=
  l.foldl (fun acc r => if r.destination ∈ acc then acc else acc ++ [r.destination]) []

/-- The routes appended under one destination key, in input order. -/
def destGroup (l : List RouteEntry) (d : String) : List RouteEntry :=
  l.filter (fun r => r.destination = d)

/-- Stable insertion step: place `r` before the first entry of strictly
greater-or-equal... before the first entry whose priority is not smaller,
keeping earlier-inserted equal-priority entries after `r` only when they
come later in the original list (see `sortByPriority`). -/
def insertByPriority (r : RouteEntry) : List RouteEntry → List RouteEntry
  | [] => [r]
  | x :: xs =>
    if r.priority ≤ x.priority then r :: x :: xs else x :: insertByPriority r xs

/-- Python's `sorted(routes, key=lambda x: x.priority)` (line 121): a stable
sort by ascending priority, embedded as stable insertion sort (extensionally
the behaviour Python guarantees for `sorted`). -/
def sortByPriority (l : List RouteEntry) : List RouteEntry :=
  l.foldr insertByPriority []

/-- Lines 121-124 for one destination group: the first useable entry of the
stable priority sort, if any. -/
def selectForDest (g : List RouteEntry) : Option RouteEntry :=
  ((sortByPriority g).filter isUseable).head?

/-- `selected_routes` (lines 118-124): one selected candidate per
destination group that has a useable entry, in group-key order. -/
def selectedRoutes (cfg : List RouteEntry) : List RouteEntry :=
  (destKeys cfg).filterMap (fun d => selectForDest (destGroup cfg d))

/-- `failed_routes` (line 125): every non-useable entry of every group, in
group-key order and sorted order within a group. -/
def failedRoutes (cfg : List RouteEntry) : List RouteEntry :=
  (destKeys cfg).foldr
    (fun d acc => (sortByPriority (destGroup cfg d)).filter (fun r => !isUseable r) ++ acc)
    []

/-- The inject / remove / existing plan `enable_config_route` builds. -/
structure Plan where
  inject : List RouteEntry
  remove : List RouteEntry
  existing : List RouteEntry
deriving DecidableEq, Repr

/-- The kernel route the decision loop looks up for a candidate
(lines 135-144): first kernel route with the same normalized destination. -/
def matchedSys (ip_routes : List RouteEntry) (c : RouteEntry) : Option RouteEntry :=
  ip_routes.find?
    (fun sr => normalize_dest sr.destination == normalize_dest c.destination)

/-- One iteration of the decision loop over selected candidates
(lines 133-166). -/
def decideStep (ip_routes : List RouteEntry) (m : List (String × Int))
    (p : Plan) (c : RouteEntry) : Plan :=
  match matchedSys ip_routes c with
  | some sr =>
    if c.priority < lookupD m sr.id uncached_priority then
      { p with remove := p.remove ++ [sr], inject := p.inject ++ [c] }
    else
      { p with existing := p.existing ++ [c] }
  | none => { p with inject := p.inject ++ [c] }

/-- One iteration of the failed-route cleanup loop (lines 169-172): a
structurally-matching kernel route is scheduled for removal unless one
structurally equal to it already is (`not in` uses `__eq__`). -/
def failedStep (ip_routes : List RouteEntry) (p : Plan) (f : RouteEntry) : Plan :=
  match ip_routes.find? (fun sr => structEq sr f) with
  | some sr => if containsEq sr p.remove then p else { p with remove := p.remove ++ [sr] }
  | none => p

/-- `enable_config_route` (lines 74-185), embedded as the plan it computes
and hands to `apply_routes`.  The status-transition logging at the top of
the source writes `route_status` and logs, touching nothing the plan
depends on. -/
def enable_config_route (ip_routes config_routes : List RouteEntry) : Plan :=
  let m := sysRouteConfigMap ip_routes config_routes
  let cfg := normalizeConfigRoutes config_routes
  let p1 := (selectedRoutes cfg).foldl (decideStep ip_routes m) ⟨[], [], []⟩
  (failedRoutes cfg).foldl (failedStep ip_routes) p1

/-- Per-destination count used by the claims: how many entries of a list
have a given normalized destination. -/
def cntDest (d : String) (l : List RouteEntry) : Nat :=
  (l.filter (fun r => normalize_dest r.destination == d)).length

/-- Per-call count: replace commands with a given normalized destination. -/
def isReplaceDest (d : String) : RouteCall → Bool
  | .replace r => normalize_dest r.destination == d
  | _ => false

/-- Per-call count: delete commands with a given normalized destination. -/
def isDelDest (d : String) : RouteCall → Bool
  | .del r => normalize_dest r.destination == d
  | _ => false

/-- Per-call count: add commands with a given normalized destination. -/
def isAddDest (d : String) : RouteCall → Bool
  | .add r => normalize_dest r.destination == d
  | _ => false

/-! ### The ICMP prober (src/test/ping_ng.py)

Packets are byte lists (each entry < 256 where the claims apply).  One's
complement arithmetic is carried out on `Nat` exactly as the source does on
Python ints; Python's `~s & 0xFFFF` on a nonnegative `s` is
`65535 - s % 65536`, and `x >> 8` / `x & 0xFF` are `x / 256` / `x % 256`. -/

/-- The 16-bit little-endian word sum of `check_sum`'s main loop:
`data[i] + (data[i+1] << 8)` over consecutive pairs, the dangling last byte
added alone when the length is odd. -/
def sumWords : List Nat → Nat
  | b0 :: b1 :: rest => b0 + b1 * 256 + sumWords rest
  | [b] => b
  | [] => 0

/-- `check_sum` (ping_ng.py lines 27-48): fold the carries of the word sum
into the low 16 bits twice, complement, and byte-swap to network order. -/
def check_sum (data : List Nat) : Nat :=
  let s0 := sumWords data
  let s1 := s0 / 65536 + s0 % 65536
  let s2 := s1 + s1 / 65536
  let answer := 65535 - s2 % 65536
  answer / 256 + answer % 256 * 256

/-- `struct.pack(">BBHHH32s", ...)`: the 8-byte big-endian ICMP header
followed by the payload padded (or truncated) to 32 bytes. -/
def packICMP (ty code chk pid seq : Nat) (payload : List Nat) : List Nat :=
  [ty, code, chk / 256, chk % 256, pid / 256, pid % 256, seq / 256, seq % 256]
    ++ (payload.take 32 ++ List.replicate (32 - payload.length) 0)

/-- `request_ping` (ping_ng.py lines 50-91): pack with the given (zero)
checksum, compute `check_sum` over that packet, and re-pack with the
computed checksum in the checksum field. -/
def request_ping (data_type data_code data_checksum data_ID data_Sequence : Nat)
    (payload_body : List Nat) : List Nat :=
  let icmp_packet := packICMP data_type data_code data_checksum data_ID
    data_Sequence payload_body
  let icmp_checksum := check_sum icmp_packet
  packICMP data_type data_code icmp_checksum data_ID data_Sequence payload_body

/-- Full one's-complement carry fold: add the high bits into the low 16 bits
until the value fits in 16 bits.  This is the reference reading of "the
one's-complement 16-bit sum with carries folded into the low 16 bits". -/
def onesFold (s : Nat) : Nat :=
  if h : s < 65536 then s else onesFold (s / 65536 + s % 65536)
decreasing_by
  have h16 : 1 ≤ s / 65536 := Nat.one_le_div_iff (by norm_num) |>.mpr (le_of_not_lt h)
  have hdm := Nat.div_add_mod s 65536
  omega

/-- `PingStats` (ping_ng.py lines 14-24), floats as rationals. -/
structure PingStats where
  host : String
  dst_addr : String
  sent : Nat
  received : Nat
  lost : Nat
  loss_percent : ℚ
  min_rtt : ℚ
  max_rtt : ℚ
  avg_rtt : ℚ
  rtt_list : List ℚ
deriving DecidableEq, Repr

/-- What the outside world does to one `ping_with_return` run: DNS
resolution fails, raw-socket creation is denied, binding to the requested
interface fails (`setsockopt` raises), or everything is set up and the
reply trace lists what `reply_ping` returns at each iteration (a round-trip
time in seconds, negative meaning the 2-second budget ran out). -/
inductive ProbeEnv where
  | dnsFail
  | permFail
  | bindFail
  | ok (replies : List ℚ)
deriving DecidableEq, Repr

/-- The send/receive loop of `ping_with_return` (lines 349-366) run for
`count` iterations: returns (sent, received, rtt_list), RTTs converted to
milliseconds in arrival order. -/
def pingLoop (replies : List ℚ) (count : Nat) : Nat × Nat × List ℚ :=
  (List.range count).foldl
    (fun st i =>
      let rtt := replies.getD i (-1)
      if 0 ≤ rtt then (st.1 + 1, st.2.1 + 1, st.2.2 ++ [rtt * 1000])
      else (st.1 + 1, st.2.1, st.2.2))
    (0, 0, [])

/-- The early-return statistics record of `ping_with_return`: all counters
zero, `loss_percent` 0.0, empty `rtt_list`. -/
def emptyStats (host dst_addr : String) : PingStats :=
  ⟨host, dst_addr, 0, 0, 0, 0, 0, 0, 0, []⟩

/-- The aggregate statistics computed after the loop (lines 371-391). -/
def statsOfLoop (host dst_addr : String) (sent received : Nat)
    (rtt_list : List ℚ) : PingStats :=
  let lost := sent - received
  let loss_percent : ℚ := if 0 < sent then (lost : ℚ) / (sent : ℚ) * 100 else 0
  match rtt_list with
  | [] => ⟨host, dst_addr, sent, received, lost, loss_percent, 0, 0, 0, []⟩
  | x :: xs =>
    ⟨host, dst_addr, sent, received, lost, loss_percent,
      xs.foldl min x, xs.foldl max x,
      (x :: xs).sum / ((x :: xs).length : ℚ), x :: xs⟩

/-- `ping_with_return` (ping_ng.py lines 238-391).  `dst` is the address
DNS resolution would yield; `iface` is the interface bind request (the
`bindFail` case only arises when an interface is given).  The failure
branches return the early statistics record with `loss_percent = 0` and an
empty `rtt_list` exactly as the source does. -/
def ping_with_return (host dst : String) (count : Nat) (iface : Option String)
    (env : ProbeEnv) : PingStats :=
  match env with
  | .dnsFail => emptyStats host ""
  | .permFail => emptyStats host dst
  | .bindFail => emptyStats host dst
  | .ok replies =>
    let st := pingLoop replies count
    statsOfLoop host dst st.1 st.2.1 st.2.2

/-! ### Health checks and warnings (src/src/modules/dataclass.py) -/

/-- Python truthiness of an `Optional[str]` (`None` and `""` are falsy). -/
def truthyStr : Option String → Bool
  | none => false
  | some s => s ≠ ""

/-- The Python expression `self.rule.ping_address or self.gateway`. -/
def pingTarget (ping_address gateway : Option String) : Option String :=
  if truthyStr ping_address then ping_address else gateway

/-- Body of `RouteEntry._handle_network_warnings` (dataclass.py lines
177-208) once `self.rule.max_latency_ms` has been read; `w` is the shared
`context.ping_warnings` set.  Warning-message strings stand in for the
formatted log text, which only determines whether the list is nonempty. -/
def handleWarningsCore (rid : String) (max_latency_ms : ℚ)
    (packet_loss avg_latency : ℚ) (meet_condition : Bool)
    (w : Finset String) : Finset String :=
  let warning_key := rid ++ "_net_warning"
  if meet_condition then
    let warning_msg : List String :=
      (if 0 < packet_loss then ["loss"] else [])
        ++ (if max_latency_ms * (4 / 5) < avg_latency then ["latency"] else [])
    if warning_msg ≠ [] then insert warning_key w
    else w.erase warning_key
  else w.erase warning_key

/-- `RouteEntry._handle_network_warnings`: reads `self.rule.max_latency_ms`,
so a rule-less entry raises (`none`); otherwise returns the updated
warning set. -/
def RouteEntry.handle_network_warnings (e : RouteEntry)
    (packet_loss avg_latency : ℚ) (meet_condition : Bool)
    (w : Finset String) : Option (Finset String) :=
  e.rule.map (fun ru =>
    handleWarningsCore e.id (ru.max_latency_ms : ℚ) packet_loss avg_latency
      meet_condition w)

/-- `RouteEntry.check_status` (dataclass.py lines 133-175).  `dst` is the
address the target would resolve to and `env` the probe environment; the
`except Exception` branch of the source corresponds to no case here because
the embedded `ping_with_return` returns on every modelled environment
(it converts its own failures into statistics records).  Returns the
returned boolean, the entry after the method (only `useable` can change),
and the warning set after the method. -/
def RouteEntry.check_status (e : RouteEntry) (dst : String) (env : ProbeEnv)
    (w : Finset String) : Bool × RouteEntry × Finset String :=
  match e.rule with
  | none => (true, e, w)
  | some ru =>
    if ru.type ≠ "ping" then (true, e, w)
    else
      match pingTarget ru.ping_address e.gateway with
      | none => (true, e, w)
      | some t =>
        if t = "" then (true, e, w)
        else
          let stats := ping_with_return t dst 3 (some e.interface) env
          let packet_loss := stats.loss_percent
          let avg_latency := stats.avg_rtt
          let meet_condition : Bool :=
            !(decide (ru.max_packet_loss < packet_loss))
              && !(decide ((ru.max_latency_ms : ℚ) < avg_latency))
          let w2 := handleWarningsCore e.id (ru.max_latency_ms : ℚ) packet_loss
            avg_latency meet_condition w
          (meet_condition, { e with useable := some meet_condition }, w2)

/-! ### The per-route monitor task (src/src/main.py lines 38-58) -/

/-- Outcome of one `check_status` call as the monitor observes it: the
entry's `useable` value after a normal return, or a raised exception. -/
inductive CheckOutcome where
  | ok (useable : Option Bool)
  | exc
deriving DecidableEq, Repr

/-- What one finite observation of a `monitor_route` task records: how many
times `initial_check_event.set()` ran, whether the gate event ends set,
whether the `except` branch logged the error, whether the exception was
re-raised out of the coroutine, and how many times the shared
`interface_change_event` was set. -/
structure MonitorOutcome where
  gateSetCalls : Nat
  gateSet : Bool
  errorLogged : Bool
  raised : Bool
  changeSignals : Nat
deriving DecidableEq, Repr

/-- The `while True` monitoring loop (main.py lines 47-53) observed along a
finite trace of check outcomes; returns (extra gate set calls, change
signals, error logged, raised). -/
def monLoop : Option Bool → List CheckOutcome → Nat × Nat × Bool × Bool
  | _, [] => (0, 0, false, false)
  | _, .exc :: _ => (1, 0, true, true)
  | prev, .ok u :: rest =>
    let r := monLoop u rest
    if u ≠ prev then (r.1, r.2.1 + 1, r.2.2) else r

/-- `monitor_route` (main.py lines 38-58) observed along a finite trace of
`check_status` outcomes.  A first-check exception hits the `except` branch:
log, set the gate event, re-raise.  A normal first check sets the gate
event, fires `interface_change_event`, and enters the loop; a later
exception hits the same `except` branch (its second gate `set()` call is a
no-op on the already-set event). -/
def monitor_route : List CheckOutcome → MonitorOutcome
  | [] => ⟨0, false, false, false, 0⟩
  | .exc :: _ => ⟨1, true, true, true, 0⟩
  | .ok u :: rest =>
    let r := monLoop u rest
    ⟨1 + r.1, true, r.2.2.1, r.2.2.2, 1 + r.2.1⟩

/-! ### Concrete inputs used by witnesses and counterexamples -/

/-- A ping rule with ordinary thresholds: 20% loss, 100 ms latency. -/
def exPingRule : RouteRule := ⟨"ping", 20, 100, 1, some "192.0.2.1"⟩

/-- A config entry guarded by `exPingRule`. -/
def exPingEntry : RouteEntry :=
  ⟨"r1", "default", some "10.0.0.1", "eth0", 0, 10, none, some exPingRule, none⟩

/-- A config entry with no rule whose `useable` field is currently false. -/
def exNoRuleEntry : RouteEntry :=
  ⟨"r2", "default", some "10.0.0.1", "eth0", 0, 10, none, none, some false⟩

/-- Example config list: one destination, three candidates. -/
def exConfig : List RouteEntry :=
  [⟨"a", "0.0.0.0/0", some "10.0.0.1", "eth0", 0, 10, none, none, some true⟩,
   ⟨"b", "default", some "10.0.0.2", "eth1", 0, 5, none, none, some false⟩,
   ⟨"c", "default", some "10.0.0.3", "eth2", 0, 10, none, none, some true⟩]

/-- Example kernel snapshot: the route of the unusable candidate "b". -/
def exKernel : List RouteEntry :=
  [⟨"sys_route0", "default", some "10.0.0.2", "eth1", 0, 0, none, none, none⟩]

/-- Per-structural-key count: how many entries of a list share a given
structural key. -/
def cntK (k : String × Option String × String × Int) (l : List RouteEntry) : Nat :=
  (l.filter (fun x => decide (skey x = k))).length

/-! ## Lemmas -/

theorem monLoop_of_exc (rest : List CheckOutcome) :
    ∀ prev, CheckOutcome.exc ∈ rest →
      (monLoop prev rest).1 = 1 ∧ (monLoop prev rest).2.2.1 = true ∧
        (monLoop prev rest).2.2.2 = true := by
  induction rest with
  | nil => intro prev h; simp at h
  | cons c rest ih =>
    intro prev h
    cases c with
    | exc => simp [monLoop]
    | ok u =>
      have hm : CheckOutcome.exc ∈ rest := by
        rcases List.mem_cons.mp h with h1 | h1
        · exact absurd h1 (by simp)
        · exact h1
      have h2 := ih u hm
      simp only [monLoop]
      split <;> simpa using h2

theorem pingLoop_succ (replies : List ℚ) (n : Nat) :
    pingLoop replies (n + 1) =
      (if 0 ≤ replies.getD n (-1) then
        ((pingLoop replies n).1 + 1, (pingLoop replies n).2.1 + 1,
          (pingLoop replies n).2.2 ++ [replies.getD n (-1) * 1000])
      else ((pingLoop replies n).1 + 1, (pingLoop replies n).2.1,
        (pingLoop replies n).2.2)) := by
  unfold pingLoop
  rw [List.range_succ, List.foldl_append]
  rfl

theorem pingLoop_sent (replies : List ℚ) (count : Nat) :
    (pingLoop replies count).1 = count := by
  induction count with
  | zero => rfl
  | succ n ih =>
    rw [pingLoop_succ]
    split <;> simp [ih]

theorem pingLoop_all_timeout (replies : List ℚ) (count : Nat)
    (h : ∀ i < count, replies.getD i (-1) < 0) :
    (pingLoop replies count).2.1 = 0 ∧ (pingLoop replies count).2.2 = [] := by
  induction count with
  | zero => exact ⟨rfl, rfl⟩
  | succ n ih =>
    have hn := ih (fun i hi => h i (Nat.lt_succ_of_lt hi))
    rw [pingLoop_succ, if_neg (not_le.mpr (h n (Nat.lt_succ_self n)))]
    exact hn

theorem pingLoop_all_reply (replies : List ℚ) (count : Nat)
    (h : ∀ i < count, 0 ≤ replies.getD i (-1)) :
    (pingLoop replies count).2.1 = count ∧
      (pingLoop replies count).2.2.length = count := by
  induction count with
  | zero => exact ⟨rfl, rfl⟩
  | succ n ih =>
    have hn := ih (fun i hi => h i (Nat.lt_succ_of_lt hi))
    rw [pingLoop_succ, if_pos (h n (Nat.lt_succ_self n))]
    simp [hn.1, hn.2]

theorem statsOfLoop_rtt_list (host dst : String) (sent received : Nat)
    (l : List ℚ) : (statsOfLoop host dst sent received l).rtt_list = l := by
  unfold statsOfLoop
  cases l <;> rfl

theorem statsOfLoop_loss (host dst : String) (sent received : Nat)
    (l : List ℚ) :
    (statsOfLoop host dst sent received l).loss_percent =
      if 0 < sent then ((sent - received : Nat) : ℚ) / (sent : ℚ) * 100 else 0 := by
  unfold statsOfLoop
  cases l <;> rfl

/-! ## Claim C6: structural match -/

/-- Claim C6: `RouteEntry.__eq__` holds iff normalized destinations,
gateways, interfaces and metrics all agree — "default" and "0.0.0.0/0"
normalize to the same destination — and the verdict is unchanged by any
rewriting of the two entries' `id` and `priority` fields. -/
theorem claim_C6 (a b : RouteEntry) :
    (structEq a b = true ↔
      (normalize_dest a.destination = normalize_dest b.destination ∧
        a.gateway = b.gateway ∧ a.interface = b.interface ∧ a.metric = b.metric)) ∧
    (∀ (i j : String) (p q : Int),
      structEq { a with id := i, priority := p } { b with id := j, priority := q } =
        structEq a b) ∧
    normalize_dest "default" = normalize_dest "0.0.0.0/0" := by
  refine ⟨?_, fun i j p q => rfl, rfl⟩
  simp [structEq, and_assoc]

/-! ## Claim C9: monitor task failure -/

/-- Claim C9 counterexample: a first-check exception is logged and releases
the gate, but `monitor_route` re-raises it (`raise` in the `except` branch
of main.py line 58), so the error does propagate out of the monitor,
contrary to the claim. -/
theorem claim_C9_counterexample :
    (monitor_route [CheckOutcome.exc]).raised = true ∧
      (monitor_route [CheckOutcome.exc]).errorLogged = true ∧
      (monitor_route [CheckOutcome.exc]).gateSetCalls = 1 := by
  exact ⟨rfl, rfl, rfl⟩

/-- Claim C9 as amended: on every trace in which some `check_status` call
raises, the monitor logs the error, the startup-gate event ends released
(`set()` is called once or twice, the second call a no-op on an already-set
event) so the first reconciliation pass cannot deadlock — but the exception
is re-raised out of the monitor coroutine, terminating that route's task. -/
theorem claim_C9 (trace : List CheckOutcome)
    (h : CheckOutcome.exc ∈ trace) :
    (monitor_route trace).errorLogged = true ∧
      (monitor_route trace).gateSet = true ∧
      (monitor_route trace).raised = true ∧
      1 ≤ (monitor_route trace).gateSetCalls ∧
      (monitor_route trace).gateSetCalls ≤ 2 := by
  cases trace with
  | nil => simp at h
  | cons c rest =>
    cases c with
    | exc => exact ⟨rfl, rfl, rfl, le_refl 1, by simp [monitor_route]⟩
    | ok u =>
      have hm : CheckOutcome.exc ∈ rest := by
        rcases List.mem_cons.mp h with h1 | h1
        · exact absurd h1 (by simp)
        · exact h1
      have h2 := monLoop_of_exc rest u hm
      have h1 := h2.1
      simp only [monitor_route]
      exact ⟨h2.2.1, by simp, h2.2.2, by omega, by omega⟩

/-- Claim C9 witness: the amended statement at the concrete trace of one
successful check followed by a raising check. -/
theorem claim_C9_witness :
    (monitor_route [CheckOutcome.ok (some true), CheckOutcome.exc]).errorLogged = true ∧
      (monitor_route [CheckOutcome.ok (some true), CheckOutcome.exc]).gateSet = true ∧
      (monitor_route [CheckOutcome.ok (some true), CheckOutcome.exc]).raised = true ∧
      1 ≤ (monitor_route [CheckOutcome.ok (some true), CheckOutcome.exc]).gateSetCalls ∧
      (monitor_route [CheckOutcome.ok (some true), CheckOutcome.exc]).gateSetCalls ≤ 2 :=
  claim_C9 [CheckOutcome.ok (some true), CheckOutcome.exc] (by simp)

/-! ## Claim C10: the network-warning invariant -/

/-- Claim C10: after `_handle_network_warnings`, the key
`<id>_net_warning` is in the shared warning set iff `meet_condition` holds
and (`packet_loss > 0` or `avg_latency > 0.8 * max_latency_ms`); with
`meet_condition` false the key is always absent afterwards. -/
theorem claim_C10 (e : RouteEntry) (ru : RouteRule) (h : e.rule = some ru)
    (packet_loss avg_latency : ℚ) (meet_condition : Bool) (w : Finset String) :
    ∃ w2, e.handle_network_warnings packet_loss avg_latency meet_condition w
        = some w2 ∧
      ((e.id ++ "_net_warning") ∈ w2 ↔
        meet_condition = true ∧
          (0 < packet_loss ∨ (ru.max_latency_ms : ℚ) * (4 / 5) < avg_latency)) := by
  refine ⟨handleWarningsCore e.id (ru.max_latency_ms : ℚ) packet_loss avg_latency
    meet_condition w, by simp [RouteEntry.handle_network_warnings, h], ?_⟩
  unfold handleWarningsCore
  cases meet_condition with
  | false => simp
  | true =>
    by_cases hl : 0 < packet_loss <;> by_cases ha :
        (ru.max_latency_ms : ℚ) * (4 / 5) < avg_latency <;>
      simp [hl, ha]

/-- Claim C10 witness: a concrete degraded-but-usable call records the
warning key. -/
theorem claim_C10_witness :
    ∃ w2, exPingEntry.handle_network_warnings 1 0 true ∅ = some w2 ∧
      ((exPingEntry.id ++ "_net_warning") ∈ w2 ↔
        true = true ∧
          (0 < (1 : ℚ) ∨ ((exPingRule.max_latency_ms : ℚ) * (4 / 5) < 0))) :=
  claim_C10 exPingEntry exPingRule rfl 1 0 true ∅

/-! ## Claim C8: prober statistics at the extremes -/

/-- Claim C8: for a probe run with positive count past address resolution
and socket setup, an all-timeout reply trace yields `loss_percent = 100`
with an empty `rtt_list`, and an all-reply trace yields `loss_percent = 0`
with `rtt_list` of length `count`. -/
theorem claim_C8 (host dst : String) (iface : Option String) (count : Nat)
    (replies : List ℚ) (hc : 0 < count) :
    ((∀ i < count, replies.getD i (-1) < 0) →
      (ping_with_return host dst count iface (ProbeEnv.ok replies)).loss_percent
          = 100 ∧
        (ping_with_return host dst count iface (ProbeEnv.ok replies)).rtt_list
          = []) ∧
    ((∀ i < count, 0 ≤ replies.getD i (-1)) →
      (ping_with_return host dst count iface (ProbeEnv.ok replies)).loss_percent
          = 0 ∧
        (ping_with_return host dst count iface (ProbeEnv.ok replies)).rtt_list.length
          = count) := by
  have hsent := pingLoop_sent replies count
  constructor
  · intro h
    have hto := pingLoop_all_timeout replies count h
    unfold ping_with_return
    rw [statsOfLoop_loss, statsOfLoop_rtt_list, hsent, hto.1, hto.2]
    refine ⟨?_, rfl⟩
    rw [if_pos hc, Nat.sub_zero]
    have : (count : ℚ) ≠ 0 := Nat.cast_ne_zero.mpr hc.ne'
    field_simp
  · intro h
    have hok := pingLoop_all_reply replies count h
    unfold ping_with_return
    rw [statsOfLoop_loss, statsOfLoop_rtt_list, hsent, hok.1]
    refine ⟨?_, hok.2⟩
    rw [if_pos hc, Nat.sub_self]
    simp

/-- Claim C8 witness: two timed-out probes of a two-packet run give 100%
loss and no RTT samples. -/
theorem claim_C8_witness :
    (ping_with_return "h" "192.0.2.1" 2 none (ProbeEnv.ok [-1, -1])).loss_percent
        = 100 ∧
      (ping_with_return "h" "192.0.2.1" 2 none (ProbeEnv.ok [-1, -1])).rtt_list
        = [] :=
  (claim_C8 "h" "192.0.2.1" none 2 [-1, -1] (by norm_num)).1 (by decide)

/-! ## Claim C5: trivially successful health checks -/

/-- Claim C5 counterexample: an entry with no rule and `useable = false`
gets a successful `check_status` return, yet its `useable` field is still
false afterwards — the early returns of `check_status` (dataclass.py lines
135-141) never write `useable`, so the claim's "afterwards the entry's
useable field is true" fails. -/
theorem claim_C5_counterexample :
    (exNoRuleEntry.check_status "" (ProbeEnv.ok []) ∅).1 = true ∧
      (exNoRuleEntry.check_status "" (ProbeEnv.ok []) ∅).2.1.useable = some false := by
  exact ⟨rfl, rfl⟩

/-- Claim C5 as amended: when the rule is absent, the rule kind is not
"ping", or there is no resolvable target (no truthy override address and no
truthy gateway), `check_status` returns success and leaves the entry — in
particular its `useable` field — and the warning set unchanged (so
`useable` is true afterwards only if it already was). -/
theorem claim_C5 (e : RouteEntry) (dst : String) (env : ProbeEnv)
    (w : Finset String)
    (h : e.rule = none ∨ (∃ ru, e.rule = some ru ∧ ru.type ≠ "ping") ∨
      (∃ ru, e.rule = some ru ∧ truthyStr ru.ping_address = false ∧
        truthyStr e.gateway = false)) :
    (e.check_status dst env w).1 = true ∧ (e.check_status dst env w).2.1 = e ∧
      (e.check_status dst env w).2.2 = w := by
  unfold RouteEntry.check_status
  rcases h with h | ⟨ru, hru, hty⟩ | ⟨ru, hru, hpa, hgw⟩
  · rw [h]; exact ⟨rfl, rfl, rfl⟩
  · simp [hru, hty]
  · have htarget : pingTarget ru.ping_address e.gateway = e.gateway := by
      unfold pingTarget
      rw [hpa]
      simp
    by_cases hty : ru.type = "ping"
    · cases hg : e.gateway with
      | none =>
        rw [hg] at htarget
        simp [hru, hty, htarget]
      | some s =>
        have hs : s = "" := by
          rw [hg] at hgw
          unfold truthyStr at hgw
          simpa using hgw
        subst hs
        rw [hg] at htarget
        simp [hru, hty, htarget]
    · simp [hru, hty]

/-- Claim C5 witness: the amended statement at the concrete rule-less
entry. -/
theorem claim_C5_witness :
    (exNoRuleEntry.check_status "" (ProbeEnv.ok []) ∅).1 = true ∧
      (exNoRuleEntry.check_status "" (ProbeEnv.ok []) ∅).2.1 = exNoRuleEntry ∧
      (exNoRuleEntry.check_status "" (ProbeEnv.ok []) ∅).2.2 = ∅ :=
  claim_C5 exNoRuleEntry "" (ProbeEnv.ok []) ∅ (Or.inl rfl)

/-! ## Claim C4: probe failures and useability -/

/-- Claim C4, evaluated at the failing input: for a ping-guarded entry
probed while DNS resolution fails, `ping_with_return` (ping_ng.py lines
273-290) returns a statistics record with `loss_percent = 0` and
`avg_rtt = 0` instead of raising, so `check_status` concludes
`meet_condition` and sets `useable` to TRUE — the claim (and spec section
7) say a DNS-resolution probe failure downgrades the route to unusable. -/
theorem claim_C4_code_eval :
    (exPingEntry.check_status "" ProbeEnv.dnsFail ∅).1 = true ∧
      (exPingEntry.check_status "" ProbeEnv.dnsFail ∅).2.1.useable = some true := by
  exact ⟨rfl, rfl⟩

/-! ## Claim C7: the ICMP checksum -/

theorem sumWords_cons2 (a b : Nat) (l : List Nat) :
    sumWords (a :: b :: l) = a + b * 256 + sumWords l := rfl

theorem foldStep_lt (s : Nat) (h : ¬ s < 65536) :
    s / 65536 + s % 65536 < s := by
  have h16 : 1 ≤ s / 65536 := Nat.one_le_div_iff (by norm_num) |>.mpr (le_of_not_lt h)
  have hdm := Nat.div_add_mod s 65536
  omega

theorem onesFold_mod (s : Nat) : onesFold s % 65535 = s % 65535 := by
  induction s using Nat.strong_induction_on with
  | _ s ih =>
    rw [onesFold]
    split
    · rfl
    · next h =>
      rw [ih _ (foldStep_lt s h)]
      omega

theorem onesFold_lt (s : Nat) : onesFold s < 65536 := by
  induction s using Nat.strong_induction_on with
  | _ s ih =>
    rw [onesFold]
    split
    · next h => exact h
    · next h => exact ih _ (foldStep_lt s h)

theorem onesFold_pos (s : Nat) (h : 0 < s) : 0 < onesFold s := by
  induction s using Nat.strong_induction_on with
  | _ s ih =>
    rw [onesFold]
    split
    · next => exact h
    · next hge =>
      refine ih _ (foldStep_lt s hge) ?_
      have h16 : 1 ≤ s / 65536 :=
        Nat.one_le_div_iff (by norm_num) |>.mpr (le_of_not_lt hge)
      omega

theorem sumWords_le (l : List Nat) (h : ∀ b ∈ l, b < 256) :
    sumWords l ≤ 32768 * l.length := by
  induction l using sumWords.induct with
  | case1 a b rest ih =>
    have ha := h a (by simp)
    have hb := h b (by simp)
    have hr := ih (fun x hx => h x (by simp [hx]))
    rw [sumWords_cons2]
    simp only [List.length_cons]
    omega
  | case2 b =>
    have hb := h b (by simp)
    have h1 : sumWords [b] = b := rfl
    have h2 : ([b] : List Nat).length = 1 := rfl
    omega
  | case3 => simp [sumWords]

theorem packICMP_length (t c chk pid seq : Nat) (payload : List Nat) :
    (packICMP t c chk pid seq payload).length = 40 := by
  simp only [packICMP, List.length_append, List.length_cons, List.length_nil,
    List.length_take, List.length_replicate]
  omega

theorem packICMP_bytes (t c chk pid seq : Nat) (payload : List Nat)
    (ht : t < 256) (hc : c < 256) (hchk : chk < 65536) (hid : pid < 65536)
    (hseq : seq < 65536) (hp : ∀ b ∈ payload, b < 256) :
    ∀ b ∈ packICMP t c chk pid seq payload, b < 256 := by
  intro b hb
  simp only [packICMP, List.cons_append, List.nil_append, List.mem_append,
    List.mem_cons, List.mem_replicate] at hb
  rcases hb with h | h | h | h | h | h | h | h | h
  · subst h; omega
  · subst h; omega
  · subst h; omega
  · subst h; omega
  · subst h; omega
  · subst h; omega
  · subst h; omega
  · subst h; omega
  · rcases h with h | ⟨-, h0⟩
    · exact hp b (List.take_subset 32 payload h)
    · omega

theorem sumWords_packICMP (t c chk pid seq : Nat) (payload : List Nat) :
    sumWords (packICMP t c chk pid seq payload)
      = sumWords (packICMP t c 0 pid seq payload)
        + (chk / 256 + chk % 256 * 256) := by
  simp only [packICMP, List.cons_append, List.nil_append, sumWords_cons2]
  omega

theorem check_sum_eq (data : List Nat) :
    check_sum data
      = (65535 - (sumWords data / 65536 + sumWords data % 65536
            + (sumWords data / 65536 + sumWords data % 65536) / 65536) % 65536) / 256
        + (65535 - (sumWords data / 65536 + sumWords data % 65536
            + (sumWords data / 65536 + sumWords data % 65536) / 65536) % 65536) % 256
          * 256 := rfl

theorem swap_swap (x : Nat) (h : x < 65536) :
    (x / 256 + x % 256 * 256) / 256 + (x / 256 + x % 256 * 256) % 256 * 256 = x := by
  omega

theorem answer_word_mod (s : Nat) (hs : s < 4294967296) :
    (s + (65535 - (s / 65536 + s % 65536
        + (s / 65536 + s % 65536) / 65536) % 65536)) % 65535 = 0 ∧
      0 < s + (65535 - (s / 65536 + s % 65536
        + (s / 65536 + s % 65536) / 65536) % 65536) := by
  have hq := Nat.div_add_mod s 65536
  have hmr : s % 65536 < 65536 := Nat.mod_lt _ (by norm_num)
  have hqlt : s / 65536 < 65536 := by omega
  rcases Nat.lt_or_ge (s / 65536 + s % 65536) 65536 with h1 | h1
  · have hz : (s / 65536 + s % 65536) / 65536 = 0 := Nat.div_eq_of_lt h1
    rw [hz, Nat.add_zero, Nat.mod_eq_of_lt h1]
    omega
  · have hone : (s / 65536 + s % 65536) / 65536 = 1 := by omega
    have hm2 : (s / 65536 + s % 65536 + 1) % 65536
        = s / 65536 + s % 65536 - 65535 := by omega
    rw [hone, hm2]
    omega

/-- Claim C7: inserting the `check_sum` of a zero-checksum ICMP packet into
its checksum field yields a packet whose one's-complement 16-bit sum, with
carries folded into the low 16 bits, is 0xFFFF. -/
theorem claim_C7 (t c pid seq : Nat) (payload : List Nat)
    (ht : t < 256) (hc : c < 256) (hid : pid < 65536) (hseq : seq < 65536)
    (hp : ∀ b ∈ payload, b < 256) :
    onesFold (sumWords (request_ping t c 0 pid seq payload)) = 65535 := by
  have hrp : request_ping t c 0 pid seq payload
      = packICMP t c (check_sum (packICMP t c 0 pid seq payload)) pid seq
          payload := rfl
  have hS0lt : sumWords (packICMP t c 0 pid seq payload) < 4294967296 := by
    have hb := sumWords_le (packICMP t c 0 pid seq payload)
      (packICMP_bytes t c 0 pid seq payload ht hc (by norm_num) hid hseq hp)
    rw [packICMP_length] at hb
    omega
  have hanslt : 65535 - (sumWords (packICMP t c 0 pid seq payload) / 65536
      + sumWords (packICMP t c 0 pid seq payload) % 65536
      + (sumWords (packICMP t c 0 pid seq payload) / 65536
        + sumWords (packICMP t c 0 pid seq payload) % 65536) / 65536) % 65536
      < 65536 := by omega
  have hS1 : sumWords (request_ping t c 0 pid seq payload)
      = sumWords (packICMP t c 0 pid seq payload)
        + (65535 - (sumWords (packICMP t c 0 pid seq payload) / 65536
          + sumWords (packICMP t c 0 pid seq payload) % 65536
          + (sumWords (packICMP t c 0 pid seq payload) / 65536
            + sumWords (packICMP t c 0 pid seq payload) % 65536) / 65536) % 65536) := by
    rw [hrp, sumWords_packICMP, check_sum_eq, swap_swap _ hanslt]
  have hmod := answer_word_mod (sumWords (packICMP t c 0 pid seq payload)) hS0lt
  rw [hS1]
  have h1 := onesFold_mod (sumWords (packICMP t c 0 pid seq payload)
    + (65535 - (sumWords (packICMP t c 0 pid seq payload) / 65536
      + sumWords (packICMP t c 0 pid seq payload) % 65536
      + (sumWords (packICMP t c 0 pid seq payload) / 65536
        + sumWords (packICMP t c 0 pid seq payload) % 65536) / 65536) % 65536))
  have h2 := onesFold_lt (sumWords (packICMP t c 0 pid seq payload)
    + (65535 - (sumWords (packICMP t c 0 pid seq payload) / 65536
      + sumWords (packICMP t c 0 pid seq payload) % 65536
      + (sumWords (packICMP t c 0 pid seq payload) / 65536
        + sumWords (packICMP t c 0 pid seq payload) % 65536) / 65536) % 65536))
  have h3 := onesFold_pos (sumWords (packICMP t c 0 pid seq payload)
    + (65535 - (sumWords (packICMP t c 0 pid seq payload) / 65536
      + sumWords (packICMP t c 0 pid seq payload) % 65536
      + (sumWords (packICMP t c 0 pid seq payload) / 65536
        + sumWords (packICMP t c 0 pid seq payload) % 65536) / 65536) % 65536))
    hmod.2
  omega

/-- Claim C7 witness: the checksum property at a concrete echo-request
packet (type 8, code 0, identifier 4660, sequence 1, one payload byte). -/
theorem claim_C7_witness :
    onesFold (sumWords (request_ping 8 0 0 4660 1 [97])) = 65535 :=
  claim_C7 8 0 4660 1 [97] (by norm_num) (by norm_num) (by norm_num)
    (by norm_num) (by decide)

/-! ## Claim C3: replace pairing in apply_routes -/

theorem structEq_iff_skey (a b : RouteEntry) :
    structEq a b = true ↔ skey a = skey b := by
  simp [structEq, skey, Prod.ext_iff, and_assoc]

theorem cntDest_cons (d : String) (x : RouteEntry) (xs : List RouteEntry) :
    cntDest d (x :: xs)
      = (if normalize_dest x.destination = d then 1 else 0) + cntDest d xs := by
  simp only [cntDest, List.filter_cons, beq_iff_eq]
  split <;> simp_all <;> omega

theorem cntK_cons (k : String × Option String × String × Int) (x : RouteEntry)
    (xs : List RouteEntry) :
    cntK k (x :: xs) = (if skey x = k then 1 else 0) + cntK k xs := by
  simp only [cntK, List.filter_cons]
  split <;> simp_all <;> omega

theorem cntK_pos_of_mem (b : RouteEntry) (l : List RouteEntry) (h : b ∈ l) :
    0 < cntK (skey b) l := by
  induction l with
  | nil => simp at h
  | cons x xs ih =>
    rw [cntK_cons]
    rcases List.mem_cons.mp h with h1 | h1
    · subst h1; simp
    · have := ih h1; split <;> omega

theorem containsEq_iff_cntK (a : RouteEntry) (l : List RouteEntry) :
    containsEq a l = true ↔ 0 < cntK (skey a) l := by
  induction l with
  | nil => simp [containsEq, cntK]
  | cons x xs ih =>
    rw [cntK_cons]
    simp only [containsEq, List.any_cons, Bool.or_eq_true] at *
    constructor
    · rintro (h | h)
      · rw [structEq_iff_skey] at h
        rw [if_pos h]
        omega
      · have := ih.mp h
        split <;> omega
    · intro h
      by_cases hk : skey x = skey a
      · exact Or.inl ((structEq_iff_skey x a).mpr hk)
      · rw [if_neg hk] at h
        exact Or.inr (ih.mpr (by omega))

theorem removeFirstEq_not_contains (a : RouteEntry) (l : List RouteEntry)
    (h : containsEq a l = false) : removeFirstEq a l = l := by
  induction l with
  | nil => rfl
  | cons x xs ih =>
    simp only [containsEq, List.any_cons, Bool.or_eq_false_iff] at h
    simp only [removeFirstEq, h.1, Bool.false_eq_true, if_false]
    rw [ih h.2]

theorem cntDest_removeFirstEq (a : RouteEntry) (l : List RouteEntry) (d : String)
    (h : containsEq a l = true) :
    cntDest d (removeFirstEq a l)
        + (if normalize_dest a.destination = d then 1 else 0) = cntDest d l := by
  induction l with
  | nil => simp [containsEq] at h
  | cons x xs ih =>
    simp only [containsEq, List.any_cons, Bool.or_eq_true] at h
    by_cases hx : structEq x a = true
    · simp only [removeFirstEq, hx, if_true]
      have hk : skey x = skey a := (structEq_iff_skey x a).mp hx
      have hd : normalize_dest x.destination = normalize_dest a.destination := by
        have := congrArg Prod.fst hk
        simpa [skey] using this
      rw [cntDest_cons, hd]
      omega
    · simp only [removeFirstEq, hx, Bool.false_eq_true, if_false]
      have h2 : containsEq a xs = true := by
        rcases h with h | h
        · exact absurd h hx
        · exact h
      rw [cntDest_cons, cntDest_cons]
      have := ih h2
      omega

theorem cntK_removeFirstEq (a : RouteEntry) (l : List RouteEntry)
    (k : String × Option String × String × Int)
    (h : containsEq a l = true) :
    cntK k (removeFirstEq a l) + (if k = skey a then 1 else 0) = cntK k l := by
  induction l with
  | nil => simp [containsEq] at h
  | cons x xs ih =>
    simp only [containsEq, List.any_cons, Bool.or_eq_true] at h
    by_cases hx : structEq x a = true
    · simp only [removeFirstEq, hx, if_true]
      have hk : skey x = skey a := (structEq_iff_skey x a).mp hx
      rw [cntK_cons, hk]
      by_cases hka : k = skey a
      · rw [if_pos hka, if_pos hka.symm]
        omega
      · rw [if_neg hka, if_neg (fun he => hka he.symm)]
        omega
    · simp only [removeFirstEq, hx, Bool.false_eq_true, if_false]
      have h2 : containsEq a xs = true := by
        rcases h with h | h
        · exact absurd h hx
        · exact h
      rw [cntK_cons, cntK_cons]
      have := ih h2
      omega

theorem findDest_none_cntDest (a : RouteEntry) (l : List RouteEntry)
    (h : findDest a l = none) :
    cntDest (normalize_dest a.destination) l = 0 := by
  induction l with
  | nil => rfl
  | cons x xs ih =>
    unfold findDest at h
    rw [List.find?_cons] at h
    split at h
    · exact absurd h (by simp)
    · next hcond =>
      have h2 : normalize_dest x.destination ≠ normalize_dest a.destination := by
        simpa using hcond
      rw [cntDest_cons, if_neg h2, Nat.zero_add]
      exact ih h

theorem findDest_some_facts (a b : RouteEntry) (l : List RouteEntry)
    (h : findDest a l = some b) :
    b ∈ l ∧ normalize_dest b.destination = normalize_dest a.destination := by
  refine ⟨List.mem_of_find?_eq_some h, ?_⟩
  have := List.find?_some h
  simpa using this

theorem cntDest_append (d : String) (l1 l2 : List RouteEntry) :
    cntDest d (l1 ++ l2) = cntDest d l1 + cntDest d l2 := by
  simp [cntDest, List.filter_append]

theorem cntDest_singleton (d : String) (b : RouteEntry) :
    cntDest d [b] = if normalize_dest b.destination = d then 1 else 0 := by
  rw [show ([b] : List RouteEntry) = b :: [] from rfl, cntDest_cons]
  rfl

theorem applyLoop_counts (d : String) :
    ∀ (as r i ic ri : List RouteEntry),
      (∀ k, cntK k ic ≤ cntK k i) →
      (∀ k, cntK k as ≤ cntK k r) →
      cntDest d (applyLoop as r i ic ri).1
          = cntDest d ri + min (cntDest d as) (cntDest d ic) ∧
        cntDest d (applyLoop as r i ic ri).2.1
            + min (cntDest d as) (cntDest d ic)
          = cntDest d r ∧
        cntDest d (applyLoop as r i ic ri).2.2
            + min (cntDest d as) (cntDest d ic)
          = cntDest d i := by
  intro as
  induction as with
  | nil =>
    intro r i ic ri hA hC
    simp [applyLoop, cntDest]
  | cons a as ih =>
    intro r i ic ri hA hC
    have hCtail : ∀ k, cntK k as ≤ cntK k r := by
      intro k
      have := hC k
      rw [cntK_cons] at this
      split at this <;> omega
    cases hfd : findDest a ic with
    | none =>
      have h0 : cntDest (normalize_dest a.destination) ic = 0 :=
        findDest_none_cntDest a ic hfd
      have hstep : applyLoop (a :: as) r i ic ri = applyLoop as r i ic ri := by
        simp [applyLoop, hfd]
      rw [hstep]
      obtain ⟨m1, m2, m3⟩ := ih r i ic ri hA hCtail
      rw [cntDest_cons]
      by_cases hd : normalize_dest a.destination = d
      · rw [if_pos hd]
        rw [hd] at h0
        refine ⟨?_, ?_, ?_⟩ <;> omega
      · rw [if_neg hd]
        refine ⟨?_, ?_, ?_⟩ <;> omega
    | some b =>
      obtain ⟨hbmem, hbdest⟩ := findDest_some_facts a b ic hfd
      have hbic : 0 < cntK (skey b) ic := cntK_pos_of_mem b ic hbmem
      have hga : containsEq a r = true := by
        rw [containsEq_iff_cntK]
        have := hC (skey a)
        rw [cntK_cons, if_pos rfl] at this
        omega
      have hgb : containsEq b i = true := by
        rw [containsEq_iff_cntK]
        have := hA (skey b)
        omega
      have hgbic : containsEq b ic = true := (containsEq_iff_cntK b ic).mpr hbic
      have hstep : applyLoop (a :: as) r i ic ri
          = applyLoop as (removeFirstEq a r) (removeFirstEq b i)
              (removeFirstEq b ic) (ri ++ [b]) := by
        simp [applyLoop, hfd, hga, hgb]
      rw [hstep]
      have hA2 : ∀ k, cntK k (removeFirstEq b ic) ≤ cntK k (removeFirstEq b i) := by
        intro k
        have h1 := cntK_removeFirstEq b ic k hgbic
        have h2 := cntK_removeFirstEq b i k hgb
        have h3 := hA k
        by_cases hk : k = skey b
        · rw [if_pos hk] at h1 h2; omega
        · rw [if_neg hk] at h1 h2; omega
      have hC2 : ∀ k, cntK k as ≤ cntK k (removeFirstEq a r) := by
        intro k
        have h1 := cntK_removeFirstEq a r k hga
        have h3 := hC k
        rw [cntK_cons] at h3
        by_cases hk : k = skey a
        · rw [if_pos hk] at h1
          rw [if_pos hk.symm] at h3
          omega
        · rw [if_neg hk] at h1
          rw [if_neg (fun he => hk he.symm)] at h3
          omega
      obtain ⟨m1, m2, m3⟩ := ih (removeFirstEq a r) (removeFirstEq b i)
        (removeFirstEq b ic) (ri ++ [b]) hA2 hC2
      rw [cntDest_append, cntDest_singleton] at m1
      have hicp := cntDest_removeFirstEq b ic d hgbic
      have hip := cntDest_removeFirstEq b i d hgb
      have hrp := cntDest_removeFirstEq a r d hga
      rw [cntDest_cons]
      by_cases hd : normalize_dest a.destination = d
      · have hdb : normalize_dest b.destination = d := by rw [hbdest]; exact hd
        rw [if_pos hd]
        rw [if_pos hdb] at m1 hicp hip
        rw [if_pos hd] at hrp
        refine ⟨?_, ?_, ?_⟩ <;> omega
      · have hdb : normalize_dest b.destination ≠ d := by rw [hbdest]; exact hd
        rw [if_neg hd]
        rw [if_neg hdb] at m1 hicp hip
        rw [if_neg hd] at hrp
        refine ⟨?_, ?_, ?_⟩ <;> omega

/-- Claim C3: the mutation-call list of `apply_routes` decomposes into
replaces, then deletes, then adds (so every delete precedes every add);
per normalized destination, with `r` removals and `i` injections scheduled,
exactly `min r i` removal/injection pairs become replace calls, the
`r - min r i` unpaired removals become delete calls and the `i - min r i`
unpaired injections become add calls. -/
theorem claim_C3 (inject_routes existing_routes remove_routes : List RouteEntry)
    (d : String) :
    ∃ reps dels adds : List RouteEntry,
      apply_routes inject_routes existing_routes remove_routes
          = reps.map RouteCall.replace ++ dels.map RouteCall.del
            ++ adds.map RouteCall.add ∧
        cntDest d reps = min (cntDest d remove_routes) (cntDest d inject_routes) ∧
        cntDest d dels + min (cntDest d remove_routes) (cntDest d inject_routes)
          = cntDest d remove_routes ∧
        cntDest d adds + min (cntDest d remove_routes) (cntDest d inject_routes)
          = cntDest d inject_routes := by
  obtain ⟨m1, m2, m3⟩ := applyLoop_counts d remove_routes remove_routes
    inject_routes inject_routes [] (fun k => le_refl _) (fun k => le_refl _)
  refine ⟨(applyLoop remove_routes remove_routes inject_routes inject_routes []).1,
    (applyLoop remove_routes remove_routes inject_routes inject_routes []).2.1,
    (applyLoop remove_routes remove_routes inject_routes inject_routes []).2.2,
    rfl, ?_, m2, m3⟩
  simpa [cntDest] using m1

/-! ## Claim C1: per-destination selection -/

theorem insertByPriority_perm (r : RouteEntry) (l : List RouteEntry) :
    (insertByPriority r l).Perm (r :: l) := by
  induction l with
  | nil => exact List.Perm.refl _
  | cons x xs ih =>
    unfold insertByPriority
    split
    · exact List.Perm.refl _
    · exact (ih.cons x).trans (List.Perm.swap r x xs)

theorem sortByPriority_perm (l : List RouteEntry) :
    (sortByPriority l).Perm l := by
  induction l with
  | nil => exact List.Perm.refl _
  | cons x xs ih =>
    unfold sortByPriority at *
    simp only [List.foldr_cons]
    exact (insertByPriority_perm x _).trans (ih.cons x)

theorem insertByPriority_sorted (r : RouteEntry) (l : List RouteEntry)
    (h : l.Pairwise (fun a b => a.priority ≤ b.priority)) :
    (insertByPriority r l).Pairwise (fun a b => a.priority ≤ b.priority) := by
  induction l with
  | nil => simp [insertByPriority]
  | cons x xs ih =>
    rw [List.pairwise_cons] at h
    unfold insertByPriority
    split
    · next hle =>
      rw [List.pairwise_cons]
      refine ⟨?_, List.pairwise_cons.mpr h⟩
      intro b hb
      rcases List.mem_cons.mp hb with hb | hb
      · subst hb; exact hle
      · exact le_trans hle (h.1 b hb)
    · next hgt =>
      rw [List.pairwise_cons]
      refine ⟨?_, ih h.2⟩
      intro b hb
      have hb2 := (insertByPriority_perm r xs).mem_iff.mp hb
      rcases List.mem_cons.mp hb2 with hb2 | hb2
      · subst hb2; omega
      · exact h.1 b hb2

theorem sortByPriority_sorted (l : List RouteEntry) :
    (sortByPriority l).Pairwise (fun a b => a.priority ≤ b.priority) := by
  induction l with
  | nil => simp [sortByPriority]
  | cons x xs ih =>
    unfold sortByPriority at *
    simp only [List.foldr_cons]
    exact insertByPriority_sorted x _ ih

theorem head?_filter_eq_find? (p : RouteEntry → Bool) (l : List RouteEntry) :
    (l.filter p).head? = l.find? p := by
  induction l with
  | nil => rfl
  | cons x xs ih =>
    rw [List.filter_cons]
    by_cases hx : p x
    · rw [if_pos hx, List.find?_cons_of_pos _ hx]
      rfl
    · rw [if_neg hx, List.find?_cons_of_neg _ (by simpa using hx)]
      exact ih

theorem find?_insertByPriority (p : RouteEntry → Bool) (r : RouteEntry)
    (l : List RouteEntry)
    (hs : l.Pairwise (fun a b => a.priority ≤ b.priority)) :
    List.find? p (insertByPriority r l)
      = match List.find? p l with
        | none => if p r then some r else none
        | some m =>
          if m.priority < r.priority then some m
          else if p r then some r else some m := by
  induction l with
  | nil =>
    simp only [insertByPriority, List.find?_nil]
    by_cases hr : p r
    · rw [List.find?_cons_of_pos _ hr, if_pos hr]
    · rw [List.find?_cons_of_neg _ (by simpa using hr), List.find?_nil, if_neg hr]
  | cons x xs ih =>
    rw [List.pairwise_cons] at hs
    unfold insertByPriority
    split
    · next hle =>
      cases hf : List.find? p (x :: xs) with
      | none =>
        by_cases hr : p r
        · rw [List.find?_cons_of_pos _ hr, if_pos hr]
        · rw [List.find?_cons_of_neg _ (by simpa using hr), hf, if_neg hr]
      | some m =>
        have hm : m ∈ x :: xs := List.mem_of_find?_eq_some hf
        have hxm : x.priority ≤ m.priority := by
          rcases List.mem_cons.mp hm with hm1 | hm1
          · subst hm1; exact le_refl _
          · exact hs.1 m hm1
        have hnm : ¬ (m.priority < r.priority) := by omega
        by_cases hr : p r
        · rw [List.find?_cons_of_pos _ hr]
          simp [hnm, hr]
        · rw [List.find?_cons_of_neg _ (by simpa using hr), hf]
          simp [hnm, hr]
    · next hgt =>
      by_cases hx : p x
      · have hlt : x.priority < r.priority := by omega
        rw [List.find?_cons_of_pos _ hx, List.find?_cons_of_pos _ hx]
        simp [hlt]
      · rw [List.find?_cons_of_neg _ (by simpa using hx),
          List.find?_cons_of_neg _ (by simpa using hx)]
        exact ih hs.2

theorem selectForDest_eq_find? (g : List RouteEntry) :
    selectForDest g = List.find? isUseable (sortByPriority g) := by
  unfold selectForDest
  exact head?_filter_eq_find? isUseable (sortByPriority g)

theorem selectForDest_spec (g : List RouteEntry) (s : RouteEntry)
    (h : selectForDest g = some s) :
    s ∈ g ∧ isUseable s = true ∧
      (∀ r ∈ g, isUseable r = true → s.priority ≤ r.priority) ∧
      ∃ g1 g2, g = g1 ++ s :: g2 ∧
        ∀ r ∈ g1, isUseable r = true → s.priority < r.priority := by
  rw [selectForDest_eq_find?] at h
  induction g generalizing s with
  | nil => simp [sortByPriority] at h
  | cons a g ih =>
    have hstep : sortByPriority (a :: g) = insertByPriority a (sortByPriority g) := by
      unfold sortByPriority
      simp only [List.foldr_cons]
    rw [hstep, find?_insertByPriority _ _ _ (sortByPriority_sorted g)] at h
    cases hf : List.find? isUseable (sortByPriority g) with
    | none =>
      rw [hf] at h
      have h2 : (if isUseable a then some a else none) = some s := h
      by_cases ha : isUseable a
      · rw [if_pos ha] at h2
        have hs : s = a := by simpa using h2.symm
        subst hs
        have hnone : ∀ r ∈ g, isUseable r = false := by
          intro r hr
          have h3 := List.find?_eq_none.mp hf
          have hr2 : r ∈ sortByPriority g := (sortByPriority_perm g).mem_iff.mpr hr
          simpa using h3 r hr2
        refine ⟨by simp, ha, ?_, [], g, rfl, by simp⟩
        intro r hr hur
        rcases List.mem_cons.mp hr with hr1 | hr1
        · subst hr1; exact le_refl _
        · rw [hnone r hr1] at hur; cases hur
      · rw [if_neg ha] at h2
        cases h2
    | some m =>
      rw [hf] at h
      have h2 : (if m.priority < a.priority then some m
          else if isUseable a then some a else some m) = some s := h
      obtain ⟨hmem, hmu, hmin, g1, g2, hsplit, hfront⟩ := ih m hf
      by_cases hlt : m.priority < a.priority
      · rw [if_pos hlt] at h2
        have hs : s = m := by simpa using h2.symm
        subst hs
        refine ⟨List.mem_cons_of_mem a hmem, hmu, ?_, a :: g1, g2,
          by rw [hsplit]; rfl, ?_⟩
        · intro r hr hur
          rcases List.mem_cons.mp hr with hr1 | hr1
          · subst hr1; omega
          · exact hmin r hr1 hur
        · intro r hr hur
          rcases List.mem_cons.mp hr with hr1 | hr1
          · subst hr1; omega
          · exact hfront r hr1 hur
      · rw [if_neg hlt] at h2
        by_cases ha : isUseable a
        · rw [if_pos ha] at h2
          have hs : s = a := by simpa using h2.symm
          subst hs
          refine ⟨by simp, ha, ?_, [], g, rfl, by simp⟩
          intro r hr hur
          rcases List.mem_cons.mp hr with hr1 | hr1
          · subst hr1; exact le_refl _
          · have := hmin r hr1 hur; omega
        · rw [if_neg ha] at h2
          have hs : s = m := by simpa using h2.symm
          subst hs
          refine ⟨List.mem_cons_of_mem a hmem, hmu, ?_, a :: g1, g2,
            by rw [hsplit]; rfl, ?_⟩
          · intro r hr hur
            rcases List.mem_cons.mp hr with hr1 | hr1
            · subst hr1; exact absurd hur ha
            · exact hmin r hr1 hur
          · intro r hr hur
            rcases List.mem_cons.mp hr with hr1 | hr1
            · subst hr1; exact absurd hur ha
            · exact hfront r hr1 hur

theorem selectForDest_isSome (g : List RouteEntry)
    (h : ∃ r ∈ g, isUseable r = true) :
    ∃ s, selectForDest g = some s := by
  rw [selectForDest_eq_find?]
  obtain ⟨r, hr, hu⟩ := h
  cases hf : List.find? isUseable (sortByPriority g) with
  | none =>
    have h2 := List.find?_eq_none.mp hf r ((sortByPriority_perm g).mem_iff.mpr hr)
    simp [hu] at h2
  | some s => exact ⟨s, rfl⟩

theorem destKeys_foldl_nodup (l : List RouteEntry) :
    ∀ acc : List String, acc.Nodup →
      (l.foldl (fun acc r =>
        if r.destination ∈ acc then acc else acc ++ [r.destination]) acc).Nodup := by
  induction l with
  | nil => intro acc h; exact h
  | cons x xs ih =>
    intro acc h
    simp only [List.foldl_cons]
    by_cases hx : x.destination ∈ acc
    · rw [if_pos hx]; exact ih acc h
    · rw [if_neg hx]
      refine ih _ ?_
      simp [List.nodup_append, h, hx]

theorem destKeys_nodup (l : List RouteEntry) : (destKeys l).Nodup :=
  destKeys_foldl_nodup l [] List.nodup_nil

theorem mem_destKeys_foldl (l : List RouteEntry) :
    ∀ (acc : List String) (d : String),
      d ∈ l.foldl (fun acc r =>
          if r.destination ∈ acc then acc else acc ++ [r.destination]) acc ↔
        d ∈ acc ∨ ∃ r ∈ l, r.destination = d := by
  induction l with
  | nil => intro acc d; simp
  | cons x xs ih =>
    intro acc d
    simp only [List.foldl_cons]
    by_cases hx : x.destination ∈ acc
    · rw [if_pos hx, ih]
      constructor
      · rintro (h | h)
        · exact Or.inl h
        · exact Or.inr (by simpa using Or.inr h)
      · rintro (h | h)
        · exact Or.inl h
        · rcases (by simpa using h : x.destination = d ∨ ∃ r ∈ xs, r.destination = d)
            with h1 | h1
          · exact Or.inl (h1 ▸ hx)
          · exact Or.inr h1
    · rw [if_neg hx, ih]
      constructor
      · rintro (h | h)
        · rcases List.mem_append.mp h with h1 | h1
          · exact Or.inl h1
          · have hxd : d = x.destination := by simpa using h1
            exact Or.inr ⟨x, by simp, hxd.symm⟩
        · obtain ⟨r, hr, hd⟩ := h
          exact Or.inr ⟨r, by simp [hr], hd⟩
      · rintro (h | h)
        · exact Or.inl (List.mem_append.mpr (Or.inl h))
        · obtain ⟨r, hr, hd⟩ := h
          rcases List.mem_cons.mp hr with h1 | h1
          · subst h1
            exact Or.inl (List.mem_append.mpr (Or.inr (by simp [hd])))
          · exact Or.inr ⟨r, h1, hd⟩

theorem mem_destKeys (l : List RouteEntry) (d : String) :
    d ∈ destKeys l ↔ ∃ r ∈ l, r.destination = d := by
  rw [destKeys, mem_destKeys_foldl]
  simp

theorem mem_destGroup (l : List RouteEntry) (d : String) (r : RouteEntry) :
    r ∈ destGroup l d ↔ r ∈ l ∧ r.destination = d := by
  simp [destGroup]

theorem selectForDest_destination (cfg : List RouteEntry) (d : String)
    (s : RouteEntry) (h : selectForDest (destGroup cfg d) = some s) :
    s.destination = d := by
  have := (selectForDest_spec _ s h).1
  exact ((mem_destGroup cfg d s).mp this).2

theorem filterMap_sel_filter (cfg : List RouteEntry) (d : String) :
    ∀ ds : List String, ds.Nodup →
      ((ds.filterMap (fun e => selectForDest (destGroup cfg e))).filter
          (fun r => r.destination == d))
        = if d ∈ ds then
            (match selectForDest (destGroup cfg d) with
             | some s => [s]
             | none => [])
          else [] := by
  intro ds
  induction ds with
  | nil => intro h; simp
  | cons e ds ih =>
    intro hnd
    rw [List.nodup_cons] at hnd
    rw [List.filterMap_cons]
    cases hsel : selectForDest (destGroup cfg e) with
    | none =>
      rw [ih hnd.2]
      by_cases hd : d = e
      · subst hd
        rw [if_neg hnd.1, if_pos (by simp), hsel]
      · by_cases hds : d ∈ ds
        · rw [if_pos hds, if_pos (by simp [hds])]
        · rw [if_neg hds, if_neg (by simp [hds, hd])]
    | some s =>
      have hsd : s.destination = e := selectForDest_destination cfg e s hsel
      rw [List.filter_cons]
      by_cases hd : d = e
      · subst hd
        rw [if_pos (by simp [hsd]), ih hnd.2, if_neg hnd.1, if_pos (by simp), hsel]
      · rw [if_neg (by simp [hsd]; exact fun h => hd h.symm), ih hnd.2]
        by_cases hds : d ∈ ds
        · rw [if_pos hds, if_pos (by simp [hds])]
        · rw [if_neg hds, if_neg (by simp [hds, hd])]

/-- Claim C1: in the selection step of `enable_config_route`, each group of
config routes sharing a normalized destination contributes at most one
selected candidate; when the group has a useable entry it contributes
exactly one — a useable entry of minimal priority whose earlier
groupmates that are useable all have strictly greater priority (ties by
priority are broken by original list order). -/
theorem claim_C1 (config_routes : List RouteEntry) (d : String) :
    ((selectedRoutes (normalizeConfigRoutes config_routes)).filter
        (fun r => r.destination == d)).length ≤ 1 ∧
    ((∃ r ∈ destGroup (normalizeConfigRoutes config_routes) d,
        isUseable r = true) →
      ∃ s,
        (selectedRoutes (normalizeConfigRoutes config_routes)).filter
            (fun r => r.destination == d) = [s] ∧
        isUseable s = true ∧
        s ∈ destGroup (normalizeConfigRoutes config_routes) d ∧
        (∀ r ∈ destGroup (normalizeConfigRoutes config_routes) d,
          isUseable r = true → s.priority ≤ r.priority) ∧
        ∃ g1 g2, destGroup (normalizeConfigRoutes config_routes) d
            = g1 ++ s :: g2 ∧
          ∀ r ∈ g1, isUseable r = true → s.priority < r.priority) := by
  have hfil : (selectedRoutes (normalizeConfigRoutes config_routes)).filter
      (fun r => r.destination == d)
      = if d ∈ destKeys (normalizeConfigRoutes config_routes) then
          (match selectForDest (destGroup (normalizeConfigRoutes config_routes) d)
            with
           | some s => [s]
           | none => [])
        else [] :=
    filterMap_sel_filter (normalizeConfigRoutes config_routes) d
      (destKeys (normalizeConfigRoutes config_routes))
      (destKeys_nodup (normalizeConfigRoutes config_routes))
  constructor
  · rw [hfil]
    by_cases hmem : d ∈ destKeys (normalizeConfigRoutes config_routes)
    · rw [if_pos hmem]
      cases selectForDest (destGroup (normalizeConfigRoutes config_routes) d) <;>
        simp
    · rw [if_neg hmem]
      simp
  · rintro ⟨r, hr, hu⟩
    have hparts := (mem_destGroup (normalizeConfigRoutes config_routes) d r).mp hr
    have hdmem : d ∈ destKeys (normalizeConfigRoutes config_routes) :=
      (mem_destKeys (normalizeConfigRoutes config_routes) d).mpr
        ⟨r, hparts.1, hparts.2⟩
    obtain ⟨s, hs⟩ := selectForDest_isSome
      (destGroup (normalizeConfigRoutes config_routes) d) ⟨r, hr, hu⟩
    have specs := selectForDest_spec
      (destGroup (normalizeConfigRoutes config_routes) d) s hs
    refine ⟨s, ?_, specs.2.1, specs.1, specs.2.2.1, specs.2.2.2⟩
    rw [hfil, if_pos hdmem, hs]

/-! ## Claim C2: installed priorities and the decision loop -/

theorem lookupD_mapSet_self (m : List (String × Int)) (k : String) (v dflt : Int) :
    lookupD (mapSet m k v) k dflt = v := by
  induction m with
  | nil => simp [mapSet, lookupD]
  | cons kv rest ih =>
    obtain ⟨k1, v1⟩ := kv
    unfold mapSet
    by_cases hk : k1 = k
    · rw [if_pos hk]
      simp [lookupD]
    · rw [if_neg hk]
      unfold lookupD
      rw [if_neg hk]
      exact ih

theorem lookupD_mapSet_other (m : List (String × Int)) (k k2 : String)
    (v dflt : Int) (h : k2 ≠ k) :
    lookupD (mapSet m k v) k2 dflt = lookupD m k2 dflt := by
  induction m with
  | nil =>
    simp only [mapSet, lookupD]
    rw [if_neg (fun he => h he.symm)]
  | cons kv rest ih =>
    obtain ⟨k1, v1⟩ := kv
    unfold mapSet
    by_cases hk : k1 = k
    · rw [if_pos hk]
      unfold lookupD
      rw [if_neg (fun he => h he.symm), if_neg (by rw [hk]; exact fun he => h he.symm)]
    · rw [if_neg hk]
      unfold lookupD
      by_cases hk2 : k1 = k2
      · rw [if_pos hk2, if_pos hk2]
      · rw [if_neg hk2, if_neg hk2]
        exact ih

theorem sysMap_foldl_absent (cfg : List RouteEntry) (dflt : Int) :
    ∀ (l : List RouteEntry) (m0 : List (String × Int)) (k : String),
      (∀ sr ∈ l, sr.id ≠ k) →
      lookupD (l.foldl
          (fun m sr => mapSet m sr.id (installedPriority cfg sr)) m0) k dflt
        = lookupD m0 k dflt := by
  intro l
  induction l with
  | nil => intro m0 k h; rfl
  | cons x xs ih =>
    intro m0 k h
    simp only [List.foldl_cons]
    rw [ih _ k (fun sr hsr => h sr (by simp [hsr]))]
    exact lookupD_mapSet_other m0 x.id k _ dflt (fun he => h x (by simp) he.symm)

theorem sysMap_foldl_mem (cfg : List RouteEntry) (dflt : Int) :
    ∀ (l : List RouteEntry) (m0 : List (String × Int)) (sr : RouteEntry),
      sr ∈ l → (l.map (fun r => r.id)).Nodup →
      lookupD (l.foldl
          (fun m sr => mapSet m sr.id (installedPriority cfg sr)) m0) sr.id dflt
        = installedPriority cfg sr := by
  intro l
  induction l with
  | nil => intro m0 sr h; simp at h
  | cons x xs ih =>
    intro m0 sr hmem hnd
    rw [List.map_cons, List.nodup_cons] at hnd
    simp only [List.foldl_cons]
    rcases List.mem_cons.mp hmem with h1 | h1
    · subst h1
      rw [sysMap_foldl_absent cfg dflt xs _ sr.id ?_]
      · exact lookupD_mapSet_self m0 sr.id _ dflt
      · intro sr2 hsr2 he
        exact hnd.1 (by rw [← he]; exact List.mem_map_of_mem _ hsr2)
    · exact ih _ sr h1 hnd.2

theorem sysMap_lookup (ip_routes config_routes : List RouteEntry)
    (sr : RouteEntry) (hmem : sr ∈ ip_routes)
    (hnd : (ip_routes.map (fun r => r.id)).Nodup) (dflt : Int) :
    lookupD (sysRouteConfigMap ip_routes config_routes) sr.id dflt
      = installedPriority config_routes sr :=
  sysMap_foldl_mem config_routes dflt ip_routes [] sr hmem hnd

theorem installedPriority_cases (config_routes : List RouteEntry)
    (sr : RouteEntry) :
    (∃ cr ∈ config_routes, structEq cr sr = true ∧
        installedPriority config_routes sr = cr.priority) ∨
      ((∀ cr ∈ config_routes, structEq cr sr = false) ∧
        installedPriority config_routes sr = uncached_priority) := by
  unfold installedPriority
  cases hf : config_routes.find? (fun cr => structEq cr sr) with
  | some cr =>
    exact Or.inl ⟨cr, List.mem_of_find?_eq_some hf,
      by simpa using List.find?_some hf, rfl⟩
  | none =>
    refine Or.inr ⟨?_, rfl⟩
    intro cr hcr
    have := List.find?_eq_none.mp hf cr hcr
    simpa using this

theorem decideStep_foldl (ip_routes : List RouteEntry) (m : List (String × Int)) :
    ∀ (sel : List RouteEntry) (p : Plan),
      (sel.foldl (decideStep ip_routes m) p).inject
          = p.inject ++ sel.filter (fun c =>
              match matchedSys ip_routes c with
              | some sr => decide (c.priority < lookupD m sr.id uncached_priority)
              | none => true) ∧
        (sel.foldl (decideStep ip_routes m) p).existing
          = p.existing ++ sel.filter (fun c =>
              match matchedSys ip_routes c with
              | some sr => !decide (c.priority < lookupD m sr.id uncached_priority)
              | none => false) ∧
        (sel.foldl (decideStep ip_routes m) p).remove
          = p.remove ++ sel.filterMap (fun c =>
              match matchedSys ip_routes c with
              | some sr =>
                if c.priority < lookupD m sr.id uncached_priority then some sr
                else none
              | none => none) := by
  intro sel
  induction sel with
  | nil => intro p; simp
  | cons c sel ih =>
    intro p
    simp only [List.foldl_cons, List.filter_cons, List.filterMap_cons]
    obtain ⟨ih1, ih2, ih3⟩ := ih (decideStep ip_routes m p c)
    refine ⟨?_, ?_, ?_⟩
    · rw [ih1]
      cases hms : matchedSys ip_routes c with
      | none => simp [decideStep, hms]
      | some sr =>
        by_cases hlt : c.priority < lookupD m sr.id uncached_priority <;>
          simp [decideStep, hms, hlt]
    · rw [ih2]
      cases hms : matchedSys ip_routes c with
      | none => simp [decideStep, hms]
      | some sr =>
        by_cases hlt : c.priority < lookupD m sr.id uncached_priority <;>
          simp [decideStep, hms, hlt]
    · rw [ih3]
      cases hms : matchedSys ip_routes c with
      | none => simp [decideStep, hms]
      | some sr =>
        by_cases hlt : c.priority < lookupD m sr.id uncached_priority <;>
          simp [decideStep, hms, hlt]

theorem failedStep_foldl (ip_routes : List RouteEntry) :
    ∀ (fl : List RouteEntry) (p : Plan),
      (fl.foldl (failedStep ip_routes) p).inject = p.inject ∧
        (fl.foldl (failedStep ip_routes) p).existing = p.existing ∧
        ∃ ext, (fl.foldl (failedStep ip_routes) p).remove = p.remove ++ ext := by
  intro fl
  induction fl with
  | nil => intro p; exact ⟨rfl, rfl, [], by simp⟩
  | cons f fl ih =>
    intro p
    simp only [List.foldl_cons]
    obtain ⟨ih1, ih2, ext, ih3⟩ := ih (failedStep ip_routes p f)
    have hstep : (failedStep ip_routes p f).inject = p.inject ∧
        (failedStep ip_routes p f).existing = p.existing ∧
        ∃ e2, (failedStep ip_routes p f).remove = p.remove ++ e2 := by
      unfold failedStep
      cases hf : ip_routes.find? (fun sr => structEq sr f) with
      | none => exact ⟨rfl, rfl, [], by simp⟩
      | some sr =>
        by_cases hc : containsEq sr p.remove
        · exact ⟨by simp [hc], by simp [hc], [], by simp [hc]⟩
        · exact ⟨by simp [hc], by simp [hc], [sr], by simp [hc]⟩
    obtain ⟨hs1, hs2, e2, hs3⟩ := hstep
    refine ⟨by rw [ih1, hs1], by rw [ih2, hs2], e2 ++ ext, ?_⟩
    rw [ih3, hs3, List.append_assoc]

/-- Claim C2: (1) under distinct kernel-route ids, the recorded installed
priority of every kernel route is the priority of a structurally-matching
config route, or the sentinel 255 when no config route structurally
matches; (2) for every selected candidate, if no kernel route shares its
normalized destination it is scheduled for injection, and if one does
(the first such), the candidate is injected and that kernel route removed
when the candidate's priority is strictly lower than the installed
priority, while otherwise the candidate is classified as existing and not
injected. -/
theorem claim_C2 (ip_routes config_routes : List RouteEntry)
    (hnd : (ip_routes.map (fun r => r.id)).Nodup) :
    (∀ sr ∈ ip_routes,
      (∃ cr ∈ config_routes, structEq cr sr = true ∧
        lookupD (sysRouteConfigMap ip_routes config_routes) sr.id
            uncached_priority = cr.priority) ∨
      ((∀ cr ∈ config_routes, structEq cr sr = false) ∧
        lookupD (sysRouteConfigMap ip_routes config_routes) sr.id
            uncached_priority = 255)) ∧
    (∀ c ∈ selectedRoutes (normalizeConfigRoutes config_routes),
      (matchedSys ip_routes c = none →
        c ∈ (enable_config_route ip_routes config_routes).inject) ∧
      (∀ sr, matchedSys ip_routes c = some sr →
        (c.priority < installedPriority config_routes sr →
          c ∈ (enable_config_route ip_routes config_routes).inject ∧
          sr ∈ (enable_config_route ip_routes config_routes).remove) ∧
        (installedPriority config_routes sr ≤ c.priority →
          c ∈ (enable_config_route ip_routes config_routes).existing ∧
          c ∉ (enable_config_route ip_routes config_routes).inject))) := by
  constructor
  · intro sr hsr
    rw [sysMap_lookup ip_routes config_routes sr hsr hnd uncached_priority]
    rcases installedPriority_cases config_routes sr with ⟨cr, hm, hse, hp⟩ |
      ⟨hall, hp⟩
    · exact Or.inl ⟨cr, hm, hse, hp⟩
    · exact Or.inr ⟨hall, hp.trans rfl⟩
  · intro c hc
    obtain ⟨hF1, hF2, ext, hF3⟩ := failedStep_foldl ip_routes
      (failedRoutes (normalizeConfigRoutes config_routes))
      ((selectedRoutes (normalizeConfigRoutes config_routes)).foldl
        (decideStep ip_routes (sysRouteConfigMap ip_routes config_routes))
        ⟨[], [], []⟩)
    obtain ⟨hD1, hD2, hD3⟩ := decideStep_foldl ip_routes
      (sysRouteConfigMap ip_routes config_routes)
      (selectedRoutes (normalizeConfigRoutes config_routes))
      (⟨[], [], []⟩ : Plan)
    have henb : enable_config_route ip_routes config_routes
        = (failedRoutes (normalizeConfigRoutes config_routes)).foldl
            (failedStep ip_routes)
            ((selectedRoutes (normalizeConfigRoutes config_routes)).foldl
              (decideStep ip_routes (sysRouteConfigMap ip_routes config_routes))
              ⟨[], [], []⟩) := rfl
    have hinj : (enable_config_route ip_routes config_routes).inject
        = (selectedRoutes (normalizeConfigRoutes config_routes)).filter
            (fun c =>
              match matchedSys ip_routes c with
              | some sr => decide (c.priority <
                  lookupD (sysRouteConfigMap ip_routes config_routes) sr.id
                    uncached_priority)
              | none => true) := by
      rw [henb, hF1, hD1]
      simp
    have hexi : (enable_config_route ip_routes config_routes).existing
        = (selectedRoutes (normalizeConfigRoutes config_routes)).filter
            (fun c =>
              match matchedSys ip_routes c with
              | some sr => !decide (c.priority <
                  lookupD (sysRouteConfigMap ip_routes config_routes) sr.id
                    uncached_priority)
              | none => false) := by
      rw [henb, hF2, hD2]
      simp
    have hrem : (enable_config_route ip_routes config_routes).remove
        = (selectedRoutes (normalizeConfigRoutes config_routes)).filterMap
            (fun c =>
              match matchedSys ip_routes c with
              | some sr =>
                if c.priority <
                    lookupD (sysRouteConfigMap ip_routes config_routes) sr.id
                      uncached_priority then some sr
                else none
              | none => none) ++ ext := by
      rw [henb, hF3, hD3]
      simp
    refine ⟨?_, ?_⟩
    · intro hnone
      rw [hinj]
      exact List.mem_filter.mpr ⟨hc, by simp [hnone]⟩
    · intro sr hsr
      have hsr2 : List.find? (fun x =>
          normalize_dest x.destination == normalize_dest c.destination)
            ip_routes = some sr := hsr
      have hsrmem : sr ∈ ip_routes := List.mem_of_find?_eq_some hsr2
      have hlk : lookupD (sysRouteConfigMap ip_routes config_routes) sr.id
          uncached_priority = installedPriority config_routes sr :=
        sysMap_lookup ip_routes config_routes sr hsrmem hnd uncached_priority
      constructor
      · intro hlt
        constructor
        · rw [hinj]
          refine List.mem_filter.mpr ⟨hc, ?_⟩
          simp only [hsr, hlk]
          simpa using hlt
        · rw [hrem]
          refine List.mem_append.mpr (Or.inl ?_)
          refine List.mem_filterMap.mpr ⟨c, hc, ?_⟩
          simp only [hsr, hlk]
          rw [if_pos hlt]
      · intro hge
        constructor
        · rw [hexi]
          refine List.mem_filter.mpr ⟨hc, ?_⟩
          simp only [hsr, hlk]
          simpa using not_lt.mpr hge
        · rw [hinj]
          intro hmem
          have := (List.mem_filter.mp hmem).2
          simp only [hsr, hlk] at this
          simp at this
          omega

/-- Claim C2 witness: the statement at the concrete example snapshot
(kernel ids are distinct there). -/
theorem claim_C2_witness :
    (∀ sr ∈ exKernel,
      (∃ cr ∈ exConfig, structEq cr sr = true ∧
        lookupD (sysRouteConfigMap exKernel exConfig) sr.id
            uncached_priority = cr.priority) ∨
      ((∀ cr ∈ exConfig, structEq cr sr = false) ∧
        lookupD (sysRouteConfigMap exKernel exConfig) sr.id
            uncached_priority = 255)) ∧
    (∀ c ∈ selectedRoutes (normalizeConfigRoutes exConfig),
      (matchedSys exKernel c = none →
        c ∈ (enable_config_route exKernel exConfig).inject) ∧
      (∀ sr, matchedSys exKernel c = some sr →
        (c.priority < installedPriority exConfig sr →
          c ∈ (enable_config_route exKernel exConfig).inject ∧
          sr ∈ (enable_config_route exKernel exConfig).remove) ∧
        (installedPriority exConfig sr ≤ c.priority →
          c ∈ (enable_config_route exKernel exConfig).existing ∧
          c ∉ (enable_config_route exKernel exConfig).inject))) :=
  claim_C2 exKernel exConfig (by decide)
